import Mathlib

/-!
Verification of the DNS / DoH resolver speed tester.

The development shallowly embeds the two Python source files:
- dns_ipv4.py : UDP DNS tester (query encoding, UDP probing, per-resolver
  sampling, thread-pool fan-out, ranked summary);
- doh_ipv4.py : DoH tester (HTTPS probing, per-resolver sampling, fan-out,
  ranked summary).

Python floats together with the sentinel float. infinity are modelled by
rationals extended with a top element; network interactions are modelled by
oracles giving, per probe, the measured elapsed time and whether the probe
succeeded.
-/

/-- Python float values as used by the testers: a finite value (modelled
exactly as a rational) or the sentinel infinity. -/
abbrev PyFloat := WithTop ℚ

/-- UTF-8 encoding of one character, as Python str.encode produces for one
code point. -/
def utf8Bytes (c : Char) : List Nat :=
  let n := c.toNat
  if n < 128 then [n]
  else if n < 2048 then [192 + n / 64, 128 + n % 64]
  else if n < 65536 then [224 + n / 4096, 128 + n / 64 % 64, 128 + n % 64]
  else [240 + n / 262144, 128 + n / 4096 % 64, 128 + n / 64 % 64, 128 + n % 64]

/-- Python domain.split with separator dot, on the character list of the
string: split at every dot, keeping empty pieces. -/
def splitDot : List Char → List (List Char)
  | [] => [[]]
  | c :: cs =>
    if c = '.' then [] :: splitDot cs
    else
      match splitDot cs with
      | [] => [[c]]
      | p :: ps => (c :: p) :: ps

/-- Big-endian 16-bit packing, struct.pack with format !H (used only at
in-range constants in the source). -/
def packH (n : Nat) : List Nat := [n / 256 % 256, n % 256]

/-- The fixed 12-byte DNS header built in create_dns_query: transaction id
0x1234, flags 0x0100, one question, zero answer/authority/additional
records, all big-endian. -/
def dns_header : List Nat :=
  packH 0x1234 ++ packH 0x0100 ++ packH 1 ++ packH 0 ++ packH 0 ++ packH 0

/-- Encoding of the question labels: each label is emitted as
struct.pack with format !B of the label's character count (which fails when
the count exceeds 255) followed by the label's UTF-8 bytes. -/
def encodeLabels : List (List Char) → Option (List Nat)
  | [] => some []
  | p :: ps =>
    if p.length ≤ 255 then
      (encodeLabels ps).map (fun rest => p.length :: (p.flatMap utf8Bytes ++ rest))
    else none

namespace DNSSpeedTester

/-- Model of DNSSpeedTester.create_dns_query: header, length-prefixed
labels of the dot-split domain, a zero terminator, then type A = 1 and
class IN = 1. Returns none when struct.pack raises (a label longer than
255 characters). -/
def create_dns_query (domain : String) : Option (List Nat) :=
  (encodeLabels (splitDot domain.data)).map
    (fun q => dns_header ++ (q ++ [0] ++ packH 1 ++ packH 1))

end DNSSpeedTester

/-- Splitting a label region on its length prefixes: read a length byte n,
take the next n bytes as one label, and continue; fails if a prefix points
past the end of the region. -/
def splitLabels : List Nat → Option (List (List Nat))
  | [] => some []
  | n :: rest =>
    if n ≤ rest.length then
      (splitLabels (rest.drop n)).map (fun labs => rest.take n :: labs)
    else none
termination_by l => l.length
decreasing_by simp [List.length_drop]; omega

example : DNSSpeedTester.create_dns_query "ab.c" =
    some [0x12, 0x34, 1, 0, 0, 1, 0, 0, 0, 0, 0, 0,
          2, 97, 98, 1, 99, 0, 0, 1, 0, 1] := by decide

example : splitLabels [2, 97, 98, 1, 99] = some [[97, 98], [99]] := by
  simp [splitLabels]

/-- Outcome of the network interaction of a single probe, as an oracle value:
the wall-clock elapsed time measured around the exchange (in seconds, as
time.time differences are) and whether the exchange succeeded. A false flag
models a timeout, a socket error, or an HTTP error. -/
structure NetOutcome where
  elapsed : ℚ
  ok : Bool
deriving DecidableEq

/-- Network oracle of one resolver: the outcome of probing it for each
domain. The first argument is the resolver address (IP or URL), the second
the queried domain. -/
abbrev NetOracle := String → String → NetOutcome

/-- Finite part of a PyFloat value, used to model the comparison of a
response time against float infinity. -/
def finiteOf (x : PyFloat) : Option ℚ := WithTop.recTopCoe none some x

/-- Python statistics.mean: sum divided by length. -/
def pymean (l : List ℚ) : ℚ := l.sum / l.length

/-- Python builtin min on a list of floats (0 in the never-used empty case). -/
def pymin : List ℚ → ℚ
  | [] => 0
  | [a] => a
  | a :: b :: rest => Min.min a (pymin (b :: rest))

/-- Python builtin max on a list of floats (0 in the never-used empty case). -/
def pymax : List ℚ → ℚ
  | [] => 0
  | [a] => a
  | a :: b :: rest => Max.max a (pymax (b :: rest))

/-- Python statistics.median: sort, take the middle element for odd length,
the average of the two middle elements for even length. -/
def pymedian (l : List ℚ) : ℚ :=
  let s := l.mergeSort (fun a b => decide (a ≤ b))
  if s.length % 2 = 1 then s.getD (s.length / 2) 0
  else (s.getD (s.length / 2 - 1) 0 + s.getD (s.length / 2) 0) / 2

/-- The statistics dictionary both samplers return per resolver. -/
structure ResolverStats where
  avg : PyFloat
  min : PyFloat
  max : PyFloat
  median : PyFloat
  success_rate : ℚ
deriving DecidableEq

/-- The all-infinite, zero-success-rate dictionary returned when no probe
succeeded. -/
def sentinelStats : ResolverStats :=
  { avg := ⊤, min := ⊤, max := ⊤, median := ⊤, success_rate := 0 }

namespace DNSSpeedTester

/-- Model of DNSSpeedTester.test_dns_server: returns the pair of the server
name and the elapsed milliseconds on success, or float infinity when the
receive times out or the socket errors. -/
def test_dns_server (net : NetOracle) (server_name server_ip domain : String) :
    String × PyFloat :=
  let o := net server_ip domain
  (server_name, if o.ok then ((o.elapsed * 1000 : ℚ) : PyFloat) else ⊤)

/-- Socket lifecycle event of one UDP probe. -/
inductive SockEvent where
  | create
  | close
deriving DecidableEq

/-- The socket lifecycle of one call to test_dns_server, in program order:
the socket is created first; sock.close() runs on the success path only,
since the except branch returns directly and the source has no finally
block and no context manager. -/
def test_dns_server_sockTrace (net : NetOracle) (server_ip domain : String) :
    List SockEvent :=
  if (net server_ip domain).ok then [.create, .close] else [.create]

/-- The response times accumulated by the loop of test_multiple_queries:
one probe per domain among the first num_queries test domains, keeping the
elapsed time exactly of the probes whose result differs from infinity. -/
def collected (net : NetOracle) (server_name server_ip : String)
    (test_domains : List String) (num_queries : Nat) : List ℚ :=
  (test_domains.take num_queries).filterMap
    (fun domain => finiteOf (test_dns_server net server_name server_ip domain).2)

/-- Model of DNSSpeedTester.test_multiple_queries: probe the first
num_queries test domains sequentially, then aggregate the successful
response times, or return the sentinel dictionary when none succeeded. -/
def test_multiple_queries (net : NetOracle) (server_name server_ip : String)
    (test_domains : List String) (num_queries : Nat) : ResolverStats :=
  let results := collected net server_name server_ip test_domains num_queries
  if results = [] then sentinelStats
  else
    { avg := ((pymean results : ℚ) : PyFloat)
      min := ((pymin results : ℚ) : PyFloat)
      max := ((pymax results : ℚ) : PyFloat)
      median := ((pymedian results : ℚ) : PyFloat)
      success_rate := (results.length : ℚ) / (num_queries : ℚ) * 100 }

/-- Per-resolver task outcome at the fleet boundary: a normal
test_multiple_queries result, or an unexpected exception escaping the task
(the error message that future.result() re-raises). -/
abbrev TaskOutcome := Except String ResolverStats

/-- Model of DNSSpeedTester.run_speed_test: one task per configured server;
as each future completes, its result is stored, and a task that raised is
caught and replaced by the sentinel dictionary under the same server name.
The server list is the completion order of the futures, an arbitrary
permutation of the configured servers. -/
def run_speed_test (dns_servers : List String) (task : String → TaskOutcome) :
    List (String × ResolverStats) :=
  dns_servers.map (fun server_name =>
    match task server_name with
    | .ok r => (server_name, r)
    | .error _ => (server_name, sentinelStats))

/-- Ordering used by sorted in print_summary: by the avg entry of the
statistics dictionary. -/
def avgLE (a b : String × ResolverStats) : Bool := decide (a.2.avg ≤ b.2.avg)

/-- The ranked list sorted_results built by DNSSpeedTester.print_summary:
keep the entries whose avg is not infinite and whose success rate is
positive, then sort them by avg with Python's stable sorted. The printed
table is the first ten entries of this list. -/
def print_summary_ranked (results : List (String × ResolverStats)) :
    List (String × ResolverStats) :=
  (results.filter (fun kv => decide (kv.2.avg ≠ ⊤ ∧ 0 < kv.2.success_rate))).mergeSort avgLE

end DNSSpeedTester

namespace DoHSpeedTester

/-- Model of DoHSpeedTester.test_doh_server: the elapsed milliseconds of the
POST exchange on success, float infinity on any exception (timeout,
transport error, or non-success HTTP status). -/
def test_doh_server (net : NetOracle) (url domain : String) : PyFloat :=
  let o := net url domain
  if o.ok then ((o.elapsed * 1000 : ℚ) : PyFloat) else ⊤

/-- The times list accumulated by the loop of test_server_on_domains. -/
def times (net : NetOracle) (url : String) (domains : List String)
    (count : Nat) : List ℚ :=
  (domains.take count).filterMap
    (fun domain => finiteOf (test_doh_server net url domain))

/-- Model of DoHSpeedTester.test_server_on_domains: probe the first count
domains sequentially, then aggregate the successful response times, or
return the sentinel dictionary when none succeeded. -/
def test_server_on_domains (net : NetOracle) (url : String)
    (domains : List String) (count : Nat) : ResolverStats :=
  let ts := times net url domains count
  if ts = [] then sentinelStats
  else
    { avg := ((pymean ts : ℚ) : PyFloat)
      min := ((pymin ts : ℚ) : PyFloat)
      max := ((pymax ts : ℚ) : PyFloat)
      median := ((pymedian ts : ℚ) : PyFloat)
      success_rate := (ts.length : ℚ) / (count : ℚ) * 100 }

/-- Model of DoHSpeedTester.run: one task per configured DoH server, in
completion order; a completed future stores its statistics under the server
name, while a task that raised is caught and merely logged — no entry is
stored for that server. -/
def run (doh_servers : List String) (task : String → DNSSpeedTester.TaskOutcome) :
    List (String × ResolverStats) :=
  doh_servers.filterMap (fun server_name =>
    match task server_name with
    | .ok r => some (server_name, r)
    | .error _ => none)

/-- The ranked list sorted_results built by DoHSpeedTester.print_summary:
keep the entries whose avg is not infinite — the success rate is not
consulted — then sort them by avg with Python's stable sorted. -/
def print_summary_ranked (results : List (String × ResolverStats)) :
    List (String × ResolverStats) :=
  (results.filter (fun kv => decide (kv.2.avg ≠ ⊤))).mergeSort DNSSpeedTester.avgLE

end DoHSpeedTester

example : finiteOf ((3 : ℚ) : PyFloat) = some 3 := rfl

example : finiteOf (⊤ : PyFloat) = none := rfl

/-- Rejoining labels with dots, the inverse direction of splitting a domain
on dots. -/
def joinDots : List (List Char) → List Char
  | [] => []
  | [p] => p
  | p :: ps => p ++ '.' :: joinDots ps

lemma utf8Bytes_ascii {c : Char} (h : c.toNat < 128) : utf8Bytes c = [c.toNat] := by
  simp [utf8Bytes, h]

lemma flatMap_utf8Bytes_ascii {p : List Char} (h : ∀ c ∈ p, c.toNat < 128) :
    p.flatMap utf8Bytes = p.map Char.toNat := by
  induction p with
  | nil => rfl
  | cons c cs ih =>
    simp only [List.flatMap_cons, List.map_cons]
    rw [utf8Bytes_ascii (h c (by simp)), ih (fun d hd => h d (by simp [hd]))]
    rfl

lemma char_ofNat_toNat (c : Char) : Char.ofNat c.toNat = c := by
  apply Char.eq_of_val_eq
  simp only [Char.ofNat]
  split
  · rfl
  · rename_i h
    exact absurd c.valid h

lemma map_ofNat_map_toNat (p : List Char) :
    (p.map Char.toNat).map Char.ofNat = p := by
  rw [List.map_map]
  have : Char.ofNat ∘ Char.toNat = id := funext char_ofNat_toNat
  rw [this, List.map_id]

lemma splitDot_ne_nil (l : List Char) : splitDot l ≠ [] := by
  cases l with
  | nil => simp [splitDot]
  | cons c cs =>
    by_cases hc : c = '.'
    · simp [splitDot, hc]
    · simp only [splitDot, if_neg hc]
      cases splitDot cs <;> simp

lemma joinDots_splitDot (l : List Char) : joinDots (splitDot l) = l := by
  induction l with
  | nil => rfl
  | cons c cs ih =>
    by_cases hc : c = '.'
    · subst hc
      simp only [splitDot, if_pos rfl]
      rcases hsd : splitDot cs with _ | ⟨p, ps⟩
      · exact absurd hsd (splitDot_ne_nil cs)
      · rw [hsd] at ih
        simpa [joinDots] using ih
    · simp only [splitDot, if_neg hc]
      rcases hsd : splitDot cs with _ | ⟨p, ps⟩
      · exact absurd hsd (splitDot_ne_nil cs)
      · rw [hsd] at ih
        cases ps with
        | nil => simpa [joinDots] using ih
        | cons q qs => simpa [joinDots] using ih

lemma splitDot_length_sum (l : List Char) :
    ((splitDot l).map List.length).sum + (splitDot l).length = l.length + 1 := by
  induction l with
  | nil => rfl
  | cons c cs ih =>
    by_cases hc : c = '.'
    · simp only [splitDot, if_pos hc, List.map_cons, List.sum_cons,
        List.length_cons, List.length_nil]
      omega
    · simp only [splitDot, if_neg hc]
      rcases hsd : splitDot cs with _ | ⟨p, ps⟩
      · exact absurd hsd (splitDot_ne_nil cs)
      · rw [hsd] at ih
        simp only [List.map_cons, List.sum_cons, List.length_cons] at ih ⊢
        omega

lemma mem_of_mem_splitDot {c : Char} :
    ∀ {l p : List Char}, p ∈ splitDot l → c ∈ p → c ∈ l := by
  intro l
  induction l with
  | nil =>
    intro p hp hc
    simp [splitDot] at hp
    subst hp
    simp at hc
  | cons d ds ih =>
    intro p hp hc
    by_cases hd : d = '.'
    · simp only [splitDot, if_pos hd, List.mem_cons] at hp
      rcases hp with hp | hp
      · subst hp; simp at hc
      · exact List.mem_cons_of_mem _ (ih hp hc)
    · simp only [splitDot, if_neg hd] at hp
      rcases hsd : splitDot ds with _ | ⟨x, xs⟩
      · exact absurd hsd (splitDot_ne_nil ds)
      · rw [hsd, List.mem_cons] at hp
        rcases hp with hp | hp
        · subst hp
          rw [List.mem_cons] at hc
          rcases hc with hc | hc
          · subst hc; exact List.mem_cons_self _ _
          · exact List.mem_cons_of_mem _ (ih (by rw [hsd]; exact List.mem_cons_self _ _) hc)
        · exact List.mem_cons_of_mem _ (ih (by rw [hsd]; exact List.mem_cons_of_mem _ hp) hc)

lemma encodeLabels_isSome_iff (ls : List (List Char)) :
    (encodeLabels ls).isSome ↔ ∀ p ∈ ls, p.length ≤ 255 := by
  induction ls with
  | nil => simp [encodeLabels]
  | cons p ps ih =>
    by_cases hp : p.length ≤ 255
    · simp [encodeLabels, hp, ih]
    · simp [encodeLabels, hp]

/-- Key structural fact: on an all-ASCII label list, the encoded question
labels split back, on their length prefixes, into exactly the labels'
character codes, and their byte count is the total character count plus one
length byte per label. -/
lemma splitLabels_encodeLabels {ls : List (List Char)} {q : List Nat}
    (hascii : ∀ p ∈ ls, ∀ c ∈ p, c.toNat < 128)
    (henc : encodeLabels ls = some q) :
    splitLabels q = some (ls.map (fun p => p.map Char.toNat)) ∧
    q.length = (ls.map List.length).sum + ls.length := by
  induction ls generalizing q with
  | nil =>
    simp only [encodeLabels, Option.some.injEq] at henc
    subst henc
    simp [splitLabels]
  | cons p ps ih =>
    simp only [encodeLabels] at henc
    by_cases hp : p.length ≤ 255
    · rw [if_pos hp] at henc
      rcases hrest : encodeLabels ps with _ | rest
      · rw [hrest] at henc; simp at henc
      · rw [hrest] at henc
        simp only [Option.map_some', Option.some.injEq] at henc
        subst henc
        have hbytes : p.flatMap utf8Bytes = p.map Char.toNat :=
          flatMap_utf8Bytes_ascii (hascii p (by simp))
        have hblen : (p.flatMap utf8Bytes).length = p.length := by
          rw [hbytes, List.length_map]
        obtain ⟨ihsplit, ihlen⟩ :=
          ih (fun x hx c hc => hascii x (by simp [hx]) c hc) hrest
        constructor
        · rw [splitLabels]
          rw [if_pos (by rw [List.length_append, hblen]; omega)]
          rw [List.take_left' hblen, List.drop_left' hblen, ihsplit]
          simp [hbytes]
        · simp only [List.length_cons, List.length_append, hblen, ihlen,
            List.map_cons, List.sum_cons]
          omega
    · rw [if_neg hp] at henc; simp at henc

lemma map_toNat_map_ofNat :
    ∀ ls : List (List Char),
      (ls.map (fun p => p.map Char.toNat)).map (List.map Char.ofNat) = ls := by
  intro ls
  induction ls with
  | nil => rfl
  | cons p ps ih => simp only [List.map_cons, ih, map_ofNat_map_toNat]

/-- C1 (amended): for every all-ASCII domain string for which the encoder
returns a byte sequence, the first 12 bytes are the fixed header
(transaction id 0x1234, flags 0x0100 standard query with recursion desired,
one question, zero other counts, big-endian), the rest is the length-prefixed
label region followed by a zero terminator and 16-bit type 1 and class 1, and
splitting the label region on its single-byte length prefixes reconstructs
the original domain exactly. -/
theorem create_dns_query_wire_format (domain : String) (bs : List Nat)
    (hascii : ∀ c ∈ domain.data, c.toNat < 128)
    (henc : DNSSpeedTester.create_dns_query domain = some bs) :
    bs.take 12 = dns_header ∧
    dns_header = [0x12, 0x34, 0x01, 0x00, 0, 1, 0, 0, 0, 0, 0, 0] ∧
    ∃ region labs,
      bs = dns_header ++ region ++ [0, 0, 1, 0, 1] ∧
      splitLabels region = some labs ∧
      (∀ lab ∈ labs, lab.length ≤ 255) ∧
      joinDots (labs.map (List.map Char.ofNat)) = domain.data := by
  unfold DNSSpeedTester.create_dns_query at henc
  rcases hq : encodeLabels (splitDot domain.data) with _ | q
  · rw [hq] at henc; simp at henc
  · rw [hq] at henc
    simp only [Option.map_some', Option.some.injEq] at henc
    obtain ⟨hsplit, -⟩ := splitLabels_encodeLabels
      (fun p hp c hc => hascii c (mem_of_mem_splitDot hp hc)) hq
    have hbs : bs = dns_header ++ q ++ [0, 0, 1, 0, 1] := by
      rw [← henc]; simp [packH]
    refine ⟨?_, rfl, q, (splitDot domain.data).map (fun p => p.map Char.toNat),
      hbs, hsplit, ?_, ?_⟩
    · rw [hbs, List.append_assoc, List.take_left' (by rfl)]
    · intro lab hlab
      simp only [List.mem_map] at hlab
      obtain ⟨p, hp, rfl⟩ := hlab
      have := (encodeLabels_isSome_iff (splitDot domain.data)).mp (by rw [hq]; rfl) p hp
      simpa using this
    · rw [map_toNat_map_ofNat, joinDots_splitDot]

/-- C1 counterexample to the claim as stated: on the one-character domain
U+00E9, a string Python accepts, the encoder emits the length prefix 1 (the
character count) but two UTF-8 bytes 195, 169, so the question section
cannot be split on its length prefixes at all, and no reconstruction of the
domain is possible. -/
theorem create_dns_query_unicode_cex :
    DNSSpeedTester.create_dns_query (String.mk [Char.ofNat 233]) =
      some (dns_header ++ [1, 195, 169] ++ [0, 0, 1, 0, 1]) ∧
    splitLabels [1, 195, 169] = none := by
  constructor
  · decide
  · simp [splitLabels]

/-- C1 witness: the amended wire-format theorem applied to the concrete
domain ab.cd. -/
theorem create_dns_query_wire_format_witness :
    ([18, 52, 1, 0, 0, 1, 0, 0, 0, 0, 0, 0,
      2, 97, 98, 2, 99, 100, 0, 0, 1, 0, 1] : List Nat).take 12 = dns_header ∧
    dns_header = [0x12, 0x34, 0x01, 0x00, 0, 1, 0, 0, 0, 0, 0, 0] ∧
    ∃ region labs,
      ([18, 52, 1, 0, 0, 1, 0, 0, 0, 0, 0, 0,
        2, 97, 98, 2, 99, 100, 0, 0, 1, 0, 1] : List Nat) =
          dns_header ++ region ++ [0, 0, 1, 0, 1] ∧
      splitLabels region = some labs ∧
      (∀ lab ∈ labs, lab.length ≤ 255) ∧
      joinDots (labs.map (List.map Char.ofNat)) = ("ab.cd" : String).data :=
  create_dns_query_wire_format "ab.cd" _ (by decide) (by decide)

/-- C6 (amended): the encoder validates nothing about labels or emptiness;
it succeeds exactly when every dot-separated label of the domain has at most
255 characters (beyond which the single length byte cannot be packed), in
particular it succeeds on the empty domain and on labels of 64 to 255
bytes. -/
theorem create_dns_query_no_validation (domain : String) :
    (DNSSpeedTester.create_dns_query domain).isSome = true ↔
      ∀ p ∈ splitDot domain.data, p.length ≤ 255 := by
  rw [← encodeLabels_isSome_iff]
  unfold DNSSpeedTester.create_dns_query
  rcases hq : encodeLabels (splitDot domain.data) with _ | q <;> simp

/-- C6 counterexample to the claim as stated: the encoder does not fail on a
domain whose single label is 64 ASCII characters, 64 bytes, long, nor on the
empty domain; create_dns_query returns a byte sequence for both. -/
theorem create_dns_query_no_error_cex :
    (DNSSpeedTester.create_dns_query (String.mk (List.replicate 64 'a'))).isSome = true ∧
    (DNSSpeedTester.create_dns_query "").isSome = true ∧
    (∀ c ∈ (String.mk (List.replicate 64 'a')).data, c.toNat < 128) ∧
    (String.mk (List.replicate 64 'a')).data.length = 64 := by
  refine ⟨by decide, by decide, by decide, by decide⟩

/-- C10: for a non-empty all-ASCII domain whose labels are at most 255
characters each, the encoded query is exactly 18 bytes longer than the
domain: 12 header bytes, one length byte per label (one more than the dots
they replace), the zero terminator, and 4 bytes of type and class. -/
theorem create_dns_query_length (domain : String) (_hne : domain ≠ "")
    (hascii : ∀ c ∈ domain.data, c.toNat < 128)
    (hlab : ∀ p ∈ splitDot domain.data, p.length ≤ 255) :
    ∃ bs, DNSSpeedTester.create_dns_query domain = some bs ∧
      bs.length = domain.length + 18 := by
  rcases hq : encodeLabels (splitDot domain.data) with _ | q
  · exact absurd ((encodeLabels_isSome_iff _).mpr hlab) (by rw [hq]; simp)
  · obtain ⟨-, hlen⟩ := splitLabels_encodeLabels
      (fun p hp c hc => hascii c (mem_of_mem_splitDot hp hc)) hq
    refine ⟨dns_header ++ (q ++ [0] ++ packH 1 ++ packH 1), ?_, ?_⟩
    · simp [DNSSpeedTester.create_dns_query, hq]
    have hsum := splitDot_length_sum domain.data
    have hdl : domain.length = domain.data.length := rfl
    simp only [List.length_append, hlen, dns_header, packH, List.length_cons,
      List.length_nil, hdl]
    omega

/-- C10 witness: the length theorem applied to the concrete domain ab.cd. -/
theorem create_dns_query_length_witness :
    ∃ bs, DNSSpeedTester.create_dns_query "ab.cd" = some bs ∧
      bs.length = ("ab.cd" : String).length + 18 :=
  create_dns_query_length "ab.cd" (by decide) (by decide) (by decide)

lemma pymin_le : ∀ {l : List ℚ} {x : ℚ}, x ∈ l → pymin l ≤ x := by
  intro l
  induction l with
  | nil => intro x hx; simp at hx
  | cons a t ih =>
    intro x hx
    cases t with
    | nil =>
      rw [List.mem_singleton] at hx
      subst hx
      exact le_refl _
    | cons b r =>
      rw [List.mem_cons] at hx
      rcases hx with hx | hx
      · subst hx; exact min_le_left _ _
      · exact le_trans (min_le_right _ _) (ih hx)

lemma pymin_mem : ∀ {l : List ℚ}, l ≠ [] → pymin l ∈ l := by
  intro l
  induction l with
  | nil => intro h; exact absurd rfl h
  | cons a t ih =>
    intro _
    cases t with
    | nil => simp [pymin]
    | cons b r =>
      rcases min_cases a (pymin (b :: r)) with ⟨hm, -⟩ | ⟨hm, -⟩
      · simp [pymin, hm]
      · have := ih (by simp)
        simp only [pymin, hm]
        exact List.mem_cons_of_mem _ this

lemma le_pymax : ∀ {l : List ℚ} {x : ℚ}, x ∈ l → x ≤ pymax l := by
  intro l
  induction l with
  | nil => intro x hx; simp at hx
  | cons a t ih =>
    intro x hx
    cases t with
    | nil =>
      rw [List.mem_singleton] at hx
      subst hx
      exact le_refl _
    | cons b r =>
      rw [List.mem_cons] at hx
      rcases hx with hx | hx
      · subst hx; exact le_max_left _ _
      · exact le_trans (ih hx) (le_max_right _ _)

lemma pymax_mem : ∀ {l : List ℚ}, l ≠ [] → pymax l ∈ l := by
  intro l
  induction l with
  | nil => intro h; exact absurd rfl h
  | cons a t ih =>
    intro _
    cases t with
    | nil => simp [pymax]
    | cons b r =>
      rcases max_cases a (pymax (b :: r)) with ⟨hm, -⟩ | ⟨hm, -⟩
      · simp [pymax, hm]
      · have := ih (by simp)
        simp only [pymax, hm]
        exact List.mem_cons_of_mem _ this

lemma pymean_bounds {l : List ℚ} (h : l ≠ []) :
    pymin l ≤ pymean l ∧ pymean l ≤ pymax l := by
  have hlen : 0 < (l.length : ℚ) := by
    have : 0 < l.length := List.length_pos.mpr h
    exact_mod_cast this
  have hlow : (l.length : ℚ) * pymin l ≤ l.sum := by
    have := List.card_nsmul_le_sum l (pymin l) (fun x hx => pymin_le hx)
    simpa [nsmul_eq_mul] using this
  have hhigh : l.sum ≤ (l.length : ℚ) * pymax l := by
    have := List.sum_le_card_nsmul l (pymax l) (fun x hx => le_pymax hx)
    simpa [nsmul_eq_mul] using this
  constructor
  · rw [pymean, le_div_iff₀ hlen]
    calc pymin l * (l.length : ℚ) = (l.length : ℚ) * pymin l := mul_comm _ _
    _ ≤ l.sum := hlow
  · rw [pymean, div_le_iff₀ hlen]
    calc l.sum ≤ (l.length : ℚ) * pymax l := hhigh
    _ = pymax l * (l.length : ℚ) := mul_comm _ _

/-- Sortedness of the list pymedian sorts, transported to the ordinary
order relation. -/
lemma mergeSort_sorted_le (l : List ℚ) :
    (l.mergeSort (fun a b => decide (a ≤ b))).Pairwise (· ≤ ·) := by
  have := @List.sorted_mergeSort ℚ (fun a b : ℚ => decide (a ≤ b))
    (fun a b c hab hbc => by
      simp only [decide_eq_true_eq] at hab hbc ⊢
      exact le_trans hab hbc)
    (fun a b => by
      simp only [Bool.or_eq_true, decide_eq_true_eq]
      exact le_total a b) l
  exact this.imp (fun h => by simpa using h)

lemma pymedian_bounds {l : List ℚ} (h : l ≠ []) :
    pymin l ≤ pymedian l ∧ pymedian l ≤ pymax l := by
  have hperm : List.Perm (l.mergeSort (fun a b => decide (a ≤ b))) l :=
    List.mergeSort_perm l _
  simp only [pymedian]
  revert hperm
  generalize l.mergeSort (fun a b => decide (a ≤ b)) = s
  intro hperm
  have hlen : s.length = l.length := hperm.length_eq
  have hpos : 0 < s.length := by
    rw [hlen]
    exact List.length_pos.mpr h
  have hmem : ∀ i, i < s.length → pymin l ≤ s.getD i 0 ∧ s.getD i 0 ≤ pymax l := by
    intro i hi
    rw [List.getD_eq_getElem s 0 hi]
    have hm : s[i] ∈ l := hperm.mem_iff.mp (List.getElem_mem hi)
    exact ⟨pymin_le hm, le_pymax hm⟩
  by_cases hodd : s.length % 2 = 1
  · rw [if_pos hodd]
    exact hmem _ (by omega)
  · rw [if_neg hodd]
    have h1 : s.length / 2 - 1 < s.length := by omega
    have h2 : s.length / 2 < s.length := by omega
    obtain ⟨ha1, ha2⟩ := hmem _ h1
    obtain ⟨hb1, hb2⟩ := hmem _ h2
    constructor
    · have : pymin l + pymin l ≤ s.getD (s.length / 2 - 1) 0 + s.getD (s.length / 2) 0 :=
        add_le_add ha1 hb1
      linarith
    · have : s.getD (s.length / 2 - 1) 0 + s.getD (s.length / 2) 0 ≤ pymax l + pymax l :=
        add_le_add ha2 hb2
      linarith

/-- The two samplers are the same function: the DoH sampler differs from the
UDP sampler only in the name of the probe and of the accumulated list. -/
lemma sampler_eq (net : NetOracle) (server_name url : String)
    (domains : List String) (count : Nat) :
    DoHSpeedTester.test_server_on_domains net url domains count =
      DNSSpeedTester.test_multiple_queries net server_name url domains count := rfl

lemma times_eq_collected (net : NetOracle) (server_name url : String)
    (domains : List String) (count : Nat) :
    DoHSpeedTester.times net url domains count =
      DNSSpeedTester.collected net server_name url domains count := rfl

lemma collected_length_le (net : NetOracle) (server_name server_ip : String)
    (test_domains : List String) (num_queries : Nat) :
    (DNSSpeedTester.collected net server_name server_ip test_domains num_queries).length
      ≤ num_queries :=
  le_trans (List.length_filterMap_le _ _) (List.length_take_le _ _)

lemma tmq_of_ne_nil {net : NetOracle} {server_name server_ip : String}
    {test_domains : List String} {num_queries : Nat}
    (hne : DNSSpeedTester.collected net server_name server_ip test_domains num_queries ≠ []) :
    DNSSpeedTester.test_multiple_queries net server_name server_ip test_domains num_queries =
      { avg := ((pymean (DNSSpeedTester.collected net server_name server_ip test_domains num_queries) : ℚ) : PyFloat)
        min := ((pymin (DNSSpeedTester.collected net server_name server_ip test_domains num_queries) : ℚ) : PyFloat)
        max := ((pymax (DNSSpeedTester.collected net server_name server_ip test_domains num_queries) : ℚ) : PyFloat)
        median := ((pymedian (DNSSpeedTester.collected net server_name server_ip test_domains num_queries) : ℚ) : PyFloat)
        success_rate := ((DNSSpeedTester.collected net server_name server_ip test_domains num_queries).length : ℚ)
          / (num_queries : ℚ) * 100 } := by
  simp only [DNSSpeedTester.test_multiple_queries, if_neg hne]

lemma tmq_of_nil {net : NetOracle} {server_name server_ip : String}
    {test_domains : List String} {num_queries : Nat}
    (hnil : DNSSpeedTester.collected net server_name server_ip test_domains num_queries = []) :
    DNSSpeedTester.test_multiple_queries net server_name server_ip test_domains num_queries =
      sentinelStats := by
  simp only [DNSSpeedTester.test_multiple_queries, if_pos hnil]

lemma collected_rate_pos {net : NetOracle} {server_name server_ip : String}
    {test_domains : List String} {num_queries : Nat}
    (hne : DNSSpeedTester.collected net server_name server_ip test_domains num_queries ≠ []) :
    0 < ((DNSSpeedTester.collected net server_name server_ip test_domains num_queries).length : ℚ)
      / (num_queries : ℚ) * 100 := by
  have h1 : 1 ≤ (DNSSpeedTester.collected net server_name server_ip test_domains num_queries).length :=
    List.length_pos.mpr hne
  have h2 : 1 ≤ num_queries := le_trans h1 (collected_length_le net server_name server_ip _ _)
  have hl : (0 : ℚ) < ((DNSSpeedTester.collected net server_name server_ip test_domains num_queries).length : ℚ) := by
    exact_mod_cast h1
  have hn : (0 : ℚ) < (num_queries : ℚ) := by exact_mod_cast h2
  positivity

/-- C2: the UDP sampler depends only on the first num_queries test domains;
a failed probe's measured elapsed time never influences the result (two
oracles agreeing on success flags and on the elapsed times of successful
probes give identical statistics); and when at least one probe succeeded,
avg is the arithmetic mean, min a least element, max a greatest element, and
median the rank-based median of a sorted permutation of exactly the
successful response times. The DoH sampler is the identical function. -/
theorem test_multiple_queries_aggregation (net netB : NetOracle)
    (server_name server_ip : String) (test_domains : List String) (num_queries : Nat) :
    DNSSpeedTester.test_multiple_queries net server_name server_ip
        (test_domains.take num_queries) num_queries =
      DNSSpeedTester.test_multiple_queries net server_name server_ip
        test_domains num_queries ∧
    ((∀ domain ∈ test_domains.take num_queries,
        (netB server_ip domain).ok = (net server_ip domain).ok ∧
        ((net server_ip domain).ok = true →
          (netB server_ip domain).elapsed = (net server_ip domain).elapsed)) →
      DNSSpeedTester.test_multiple_queries netB server_name server_ip
          test_domains num_queries =
        DNSSpeedTester.test_multiple_queries net server_name server_ip
          test_domains num_queries) ∧
    (∀ res, res = DNSSpeedTester.collected net server_name server_ip test_domains num_queries →
      res ≠ [] →
      (DNSSpeedTester.test_multiple_queries net server_name server_ip
          test_domains num_queries).avg = ((res.sum / res.length : ℚ) : PyFloat) ∧
      (∃ m : ℚ, (DNSSpeedTester.test_multiple_queries net server_name server_ip
          test_domains num_queries).min = ((m : ℚ) : PyFloat) ∧ m ∈ res ∧ ∀ x ∈ res, m ≤ x) ∧
      (∃ M : ℚ, (DNSSpeedTester.test_multiple_queries net server_name server_ip
          test_domains num_queries).max = ((M : ℚ) : PyFloat) ∧ M ∈ res ∧ ∀ x ∈ res, x ≤ M) ∧
      (∃ s : List ℚ, List.Perm s res ∧ s.Pairwise (· ≤ ·) ∧
        (DNSSpeedTester.test_multiple_queries net server_name server_ip
            test_domains num_queries).median =
          (((if s.length % 2 = 1 then s.getD (s.length / 2) 0
             else (s.getD (s.length / 2 - 1) 0 + s.getD (s.length / 2) 0) / 2) : ℚ) : PyFloat))) ∧
    DoHSpeedTester.test_server_on_domains net server_ip test_domains num_queries =
      DNSSpeedTester.test_multiple_queries net server_name server_ip test_domains num_queries := by
  refine ⟨?_, ?_, ?_, sampler_eq net server_name server_ip test_domains num_queries⟩
  · have hcol : DNSSpeedTester.collected net server_name server_ip
        (test_domains.take num_queries) num_queries =
        DNSSpeedTester.collected net server_name server_ip test_domains num_queries := by
      unfold DNSSpeedTester.collected
      rw [List.take_take, min_self]
    simp only [DNSSpeedTester.test_multiple_queries, hcol]
  · intro hagree
    have hcol : DNSSpeedTester.collected netB server_name server_ip test_domains num_queries =
        DNSSpeedTester.collected net server_name server_ip test_domains num_queries := by
      unfold DNSSpeedTester.collected
      apply List.filterMap_congr
      intro d hd
      obtain ⟨hok, helap⟩ := hagree d hd
      unfold DNSSpeedTester.test_dns_server
      cases hcase : (net server_ip d).ok with
      | false => simp [hok, hcase]
      | true => simp [hok, hcase, helap hcase]
    simp only [DNSSpeedTester.test_multiple_queries, hcol]
  · intro res hres hne
    rw [tmq_of_ne_nil (by rw [← hres]; exact hne), ← hres]
    refine ⟨rfl, ⟨pymin res, rfl, pymin_mem hne, fun x hx => pymin_le hx⟩,
      ⟨pymax res, rfl, pymax_mem hne, fun x hx => le_pymax hx⟩,
      ⟨res.mergeSort (fun a b => decide (a ≤ b)), List.mergeSort_perm res _,
        mergeSort_sorted_le res, rfl⟩⟩

/-- C3: a run in which no probe succeeded returns exactly the sentinel
dictionary; conversely a sampler result with success rate 0 is the sentinel
dictionary, whose four latency fields are all the infinite value; and the
sentinel's avg is the top of the ordering, so it sorts after every other
avg in any ranking. Both samplers are covered. -/
theorem sampler_zero_success_sentinel (net : NetOracle)
    (server_name server_ip : String) (test_domains : List String) (num_queries : Nat) :
    (DNSSpeedTester.collected net server_name server_ip test_domains num_queries = [] →
      DNSSpeedTester.test_multiple_queries net server_name server_ip test_domains
        num_queries = sentinelStats) ∧
    ((DNSSpeedTester.test_multiple_queries net server_name server_ip test_domains
        num_queries).success_rate = 0 →
      DNSSpeedTester.test_multiple_queries net server_name server_ip test_domains
        num_queries = sentinelStats) ∧
    (sentinelStats.avg = ⊤ ∧ sentinelStats.min = ⊤ ∧ sentinelStats.max = ⊤ ∧
      sentinelStats.median = ⊤ ∧ sentinelStats.success_rate = 0) ∧
    (∀ stats : ResolverStats, stats.avg ≤ sentinelStats.avg) ∧
    (DoHSpeedTester.times net server_ip test_domains num_queries = [] →
      DoHSpeedTester.test_server_on_domains net server_ip test_domains num_queries
        = sentinelStats) ∧
    ((DoHSpeedTester.test_server_on_domains net server_ip test_domains
        num_queries).success_rate = 0 →
      DoHSpeedTester.test_server_on_domains net server_ip test_domains num_queries
        = sentinelStats) := by
  have hconv : (DNSSpeedTester.test_multiple_queries net server_name server_ip test_domains
      num_queries).success_rate = 0 →
      DNSSpeedTester.test_multiple_queries net server_name server_ip test_domains
        num_queries = sentinelStats := by
    intro hrate
    by_cases hres : DNSSpeedTester.collected net server_name server_ip test_domains
        num_queries = []
    · exact tmq_of_nil hres
    · exfalso
      rw [tmq_of_ne_nil hres] at hrate
      exact absurd hrate (ne_of_gt (collected_rate_pos hres))
  refine ⟨fun h => tmq_of_nil h, hconv, ⟨rfl, rfl, rfl, rfl, rfl⟩,
    fun stats => le_top, ?_, ?_⟩
  · intro h
    rw [sampler_eq net server_name server_ip test_domains num_queries]
    exact tmq_of_nil (by rw [← times_eq_collected net server_name]; exact h)
  · rw [sampler_eq net server_name server_ip test_domains num_queries]
    exact hconv

/-- C4: the success rate is always the number of successful probes divided
by the requested num_queries, times 100 — the requested count is the
denominator even when the domain list is shorter — it always lies in
[0, 100], and the empty-domain-list and zero-count cases give rate 0 with no
division error. Both samplers are covered. -/
theorem sampler_success_rate (net : NetOracle) (server_name server_ip : String)
    (test_domains : List String) (num_queries : Nat) :
    (DNSSpeedTester.test_multiple_queries net server_name server_ip test_domains
        num_queries).success_rate =
      ((DNSSpeedTester.collected net server_name server_ip test_domains
        num_queries).length : ℚ) / (num_queries : ℚ) * 100 ∧
    0 ≤ (DNSSpeedTester.test_multiple_queries net server_name server_ip test_domains
        num_queries).success_rate ∧
    (DNSSpeedTester.test_multiple_queries net server_name server_ip test_domains
        num_queries).success_rate ≤ 100 ∧
    (DNSSpeedTester.test_multiple_queries net server_name server_ip [] num_queries).success_rate = 0 ∧
    (DNSSpeedTester.test_multiple_queries net server_name server_ip test_domains 0).success_rate = 0 ∧
    (DoHSpeedTester.test_server_on_domains net server_ip test_domains
        num_queries).success_rate =
      ((DoHSpeedTester.times net server_ip test_domains num_queries).length : ℚ)
        / (num_queries : ℚ) * 100 := by
  have hmain : ∀ (ds : List String) (nq : Nat),
      (DNSSpeedTester.test_multiple_queries net server_name server_ip ds nq).success_rate =
      ((DNSSpeedTester.collected net server_name server_ip ds nq).length : ℚ)
        / (nq : ℚ) * 100 := by
    intro ds nq
    by_cases hres : DNSSpeedTester.collected net server_name server_ip ds nq = []
    · rw [tmq_of_nil hres, hres]
      simp [sentinelStats]
    · rw [tmq_of_ne_nil hres]
  have hbounds : 0 ≤ (DNSSpeedTester.test_multiple_queries net server_name server_ip
      test_domains num_queries).success_rate ∧
      (DNSSpeedTester.test_multiple_queries net server_name server_ip test_domains
        num_queries).success_rate ≤ 100 := by
    by_cases hres : DNSSpeedTester.collected net server_name server_ip test_domains
        num_queries = []
    · rw [tmq_of_nil hres]
      simp [sentinelStats]
    · rw [tmq_of_ne_nil hres]
      have h1 : 1 ≤ (DNSSpeedTester.collected net server_name server_ip test_domains
          num_queries).length := List.length_pos.mpr hres
      have h2 : 1 ≤ num_queries :=
        le_trans h1 (collected_length_le net server_name server_ip _ _)
      have hn : (0 : ℚ) < (num_queries : ℚ) := by exact_mod_cast h2
      constructor
      · positivity
      · have hle : ((DNSSpeedTester.collected net server_name server_ip test_domains
            num_queries).length : ℚ) / (num_queries : ℚ) ≤ 1 := by
          rw [div_le_one hn]
          exact_mod_cast collected_length_le net server_name server_ip _ _
        calc ((DNSSpeedTester.collected net server_name server_ip test_domains
            num_queries).length : ℚ) / (num_queries : ℚ) * 100 ≤ 1 * 100 :=
          mul_le_mul_of_nonneg_right hle (by norm_num)
        _ = 100 := one_mul _
  refine ⟨hmain test_domains num_queries, hbounds.1, hbounds.2, ?_, ?_, ?_⟩
  · rw [hmain [] num_queries]
    simp [DNSSpeedTester.collected]
  · rw [hmain test_domains 0]
    simp [DNSSpeedTester.collected]
  · rw [sampler_eq net server_name server_ip test_domains num_queries,
      times_eq_collected net server_name server_ip test_domains num_queries]
    exact hmain test_domains num_queries

/-- C9: whenever the sampler reports a positive success rate, its latency
fields satisfy min ≤ median ≤ max and min ≤ avg ≤ max. Both samplers are
covered, being the same function. -/
theorem sampler_stats_ordering (net : NetOracle) (server_name server_ip : String)
    (test_domains : List String) (num_queries : Nat)
    (hpos : 0 < (DNSSpeedTester.test_multiple_queries net server_name server_ip
        test_domains num_queries).success_rate) :
    ((DNSSpeedTester.test_multiple_queries net server_name server_ip test_domains
        num_queries).min ≤ (DNSSpeedTester.test_multiple_queries net server_name server_ip
        test_domains num_queries).median ∧
      (DNSSpeedTester.test_multiple_queries net server_name server_ip test_domains
        num_queries).median ≤ (DNSSpeedTester.test_multiple_queries net server_name server_ip
        test_domains num_queries).max ∧
      (DNSSpeedTester.test_multiple_queries net server_name server_ip test_domains
        num_queries).min ≤ (DNSSpeedTester.test_multiple_queries net server_name server_ip
        test_domains num_queries).avg ∧
      (DNSSpeedTester.test_multiple_queries net server_name server_ip test_domains
        num_queries).avg ≤ (DNSSpeedTester.test_multiple_queries net server_name server_ip
        test_domains num_queries).max) ∧
    DoHSpeedTester.test_server_on_domains net server_ip test_domains num_queries =
      DNSSpeedTester.test_multiple_queries net server_name server_ip test_domains
        num_queries := by
  refine ⟨?_, sampler_eq net server_name server_ip test_domains num_queries⟩
  have hres : DNSSpeedTester.collected net server_name server_ip test_domains
      num_queries ≠ [] := by
    intro hnil
    rw [tmq_of_nil hnil] at hpos
    exact absurd hpos (by simp [sentinelStats])
  rw [tmq_of_ne_nil hres]
  obtain ⟨hm1, hm2⟩ := pymedian_bounds hres
  obtain ⟨ha1, ha2⟩ := pymean_bounds hres
  exact ⟨WithTop.coe_le_coe.mpr hm1, WithTop.coe_le_coe.mpr hm2,
    WithTop.coe_le_coe.mpr ha1, WithTop.coe_le_coe.mpr ha2⟩

/-- A network oracle on which every probe succeeds after one second. -/
def steadyNet : NetOracle := fun _ _ => { elapsed := 1, ok := true }

/-- A network oracle on which every probe times out; the two seconds the
probe waited are measured but discarded by the failure path. -/
def failNet : NetOracle := fun _ _ => { elapsed := 2, ok := false }

lemma steadyNet_collected (server_name server_ip : String) :
    DNSSpeedTester.collected steadyNet server_name server_ip ["baidu.com"] 1 = [1000] := by
  norm_num [DNSSpeedTester.collected, DNSSpeedTester.test_dns_server, steadyNet, finiteOf]
  rfl

/-- C9 witness: the ordering theorem applied to a concrete run of one
successful probe. -/
theorem sampler_stats_ordering_witness :
    ((DNSSpeedTester.test_multiple_queries steadyNet "Google DNS 1" "8.8.8.8" ["baidu.com"]
        1).min ≤ (DNSSpeedTester.test_multiple_queries steadyNet "Google DNS 1" "8.8.8.8"
        ["baidu.com"] 1).median ∧
      (DNSSpeedTester.test_multiple_queries steadyNet "Google DNS 1" "8.8.8.8" ["baidu.com"]
        1).median ≤ (DNSSpeedTester.test_multiple_queries steadyNet "Google DNS 1" "8.8.8.8"
        ["baidu.com"] 1).max ∧
      (DNSSpeedTester.test_multiple_queries steadyNet "Google DNS 1" "8.8.8.8" ["baidu.com"]
        1).min ≤ (DNSSpeedTester.test_multiple_queries steadyNet "Google DNS 1" "8.8.8.8"
        ["baidu.com"] 1).avg ∧
      (DNSSpeedTester.test_multiple_queries steadyNet "Google DNS 1" "8.8.8.8" ["baidu.com"]
        1).avg ≤ (DNSSpeedTester.test_multiple_queries steadyNet "Google DNS 1" "8.8.8.8"
        ["baidu.com"] 1).max) ∧
    DoHSpeedTester.test_server_on_domains steadyNet "8.8.8.8" ["baidu.com"] 1 =
      DNSSpeedTester.test_multiple_queries steadyNet "Google DNS 1" "8.8.8.8" ["baidu.com"]
        1 :=
  sampler_stats_ordering steadyNet "Google DNS 1" "8.8.8.8" ["baidu.com"] 1 (by
    rw [tmq_of_ne_nil (by rw [steadyNet_collected]; simp), steadyNet_collected]
    norm_num)

lemma avgLE_trans : ∀ a b c : String × ResolverStats,
    DNSSpeedTester.avgLE a b → DNSSpeedTester.avgLE b c → DNSSpeedTester.avgLE a c := by
  intro a b c hab hbc
  simp only [DNSSpeedTester.avgLE, decide_eq_true_eq] at hab hbc ⊢
  exact le_trans hab hbc

lemma avgLE_total : ∀ a b : String × ResolverStats,
    DNSSpeedTester.avgLE a b || DNSSpeedTester.avgLE b a := by
  intro a b
  simp only [DNSSpeedTester.avgLE, Bool.or_eq_true, decide_eq_true_eq]
  exact le_total _ _

/-- C5 (amended): both rankers output a permutation of the entries their
filter keeps, sorted non-decreasing by avg with ties in original input
order; the UDP ranker keeps exactly the entries with finite avg and positive
success rate, while the DoH ranker keeps exactly the entries with finite avg
— it does not consult the success rate. No entry with sentinel statistics
survives either filter. -/
theorem print_summary_filter_sort (results : List (String × ResolverStats)) :
    List.Perm (DNSSpeedTester.print_summary_ranked results)
      (results.filter (fun kv => decide (kv.2.avg ≠ ⊤ ∧ 0 < kv.2.success_rate))) ∧
    (∀ kv ∈ DNSSpeedTester.print_summary_ranked results,
      kv.2.avg ≠ ⊤ ∧ 0 < kv.2.success_rate ∧ kv.2 ≠ sentinelStats) ∧
    (DNSSpeedTester.print_summary_ranked results).Pairwise
      (fun a b => a.2.avg ≤ b.2.avg) ∧
    (∀ a b : String × ResolverStats,
      List.Sublist [a, b]
        (results.filter (fun kv => decide (kv.2.avg ≠ ⊤ ∧ 0 < kv.2.success_rate))) →
      a.2.avg = b.2.avg →
      List.Sublist [a, b] (DNSSpeedTester.print_summary_ranked results)) ∧
    List.Perm (DoHSpeedTester.print_summary_ranked results)
      (results.filter (fun kv => decide (kv.2.avg ≠ ⊤))) ∧
    (∀ kv ∈ DoHSpeedTester.print_summary_ranked results,
      kv.2.avg ≠ ⊤ ∧ kv.2 ≠ sentinelStats) ∧
    (DoHSpeedTester.print_summary_ranked results).Pairwise
      (fun a b => a.2.avg ≤ b.2.avg) ∧
    (∀ a b : String × ResolverStats,
      List.Sublist [a, b] (results.filter (fun kv => decide (kv.2.avg ≠ ⊤))) →
      a.2.avg = b.2.avg →
      List.Sublist [a, b] (DoHSpeedTester.print_summary_ranked results)) := by
  refine ⟨List.mergeSort_perm _ _, ?_, ?_, ?_, List.mergeSort_perm _ _, ?_, ?_, ?_⟩
  · intro kv hkv
    rw [DNSSpeedTester.print_summary_ranked, List.mem_mergeSort] at hkv
    obtain ⟨-, hcond⟩ := List.mem_filter.mp hkv
    obtain ⟨h1, h2⟩ := of_decide_eq_true hcond
    refine ⟨h1, h2, fun heq => h1 ?_⟩
    rw [heq]
    rfl
  · exact (List.sorted_mergeSort avgLE_trans avgLE_total _).imp
      (fun h => by simpa [DNSSpeedTester.avgLE] using h)
  · intro a b hsub heq
    exact List.pair_sublist_mergeSort avgLE_trans avgLE_total
      (by simp [DNSSpeedTester.avgLE, heq]) hsub
  · intro kv hkv
    rw [DoHSpeedTester.print_summary_ranked, List.mem_mergeSort] at hkv
    obtain ⟨-, hcond⟩ := List.mem_filter.mp hkv
    have h1 := of_decide_eq_true hcond
    refine ⟨h1, fun heq => h1 ?_⟩
    rw [heq]
    rfl
  · exact (List.sorted_mergeSort avgLE_trans avgLE_total _).imp
      (fun h => by simpa [DNSSpeedTester.avgLE] using h)
  · intro a b hsub heq
    exact List.pair_sublist_mergeSort avgLE_trans avgLE_total
      (by simp [DNSSpeedTester.avgLE, heq]) hsub

/-- Statistics dictionary with finite latencies but zero success rate; no
sampler produces it, but the report rankers accept arbitrary mappings. -/
def zeroRateStats : ResolverStats :=
  { avg := ((5 : ℚ) : PyFloat), min := ((5 : ℚ) : PyFloat), max := ((5 : ℚ) : PyFloat),
    median := ((5 : ℚ) : PyFloat), success_rate := 0 }

/-- C5 counterexample to the claim as stated: on a mapping holding a
resolver with finite avg 5 but success rate 0, the DoH print_summary keeps
the resolver in its ranked output, while the UDP print_summary drops it. -/
theorem doh_print_summary_zero_rate_cex :
    zeroRateStats.success_rate = 0 ∧
    DoHSpeedTester.print_summary_ranked [("X", zeroRateStats)] =
      [("X", zeroRateStats)] ∧
    DNSSpeedTester.print_summary_ranked [("X", zeroRateStats)] = [] := by
  refine ⟨rfl, ?_, ?_⟩
  · simp [DoHSpeedTester.print_summary_ranked, zeroRateStats, List.filter]
  · simp [DNSSpeedTester.print_summary_ranked, zeroRateStats, List.filter]

/-- A plausible all-success statistics dictionary for concrete runs. -/
def okStats : ResolverStats :=
  { avg := ((15 : ℚ) : PyFloat), min := ((10 : ℚ) : PyFloat),
    max := ((20 : ℚ) : PyFloat), median := ((15 : ℚ) : PyFloat), success_rate := 100 }

/-- C7 (amended): in the UDP fleet every configured resolver appears in the
result mapping whatever the task outcomes are — a task that completed
stores its statistics, a task that raised is caught and stored as the
sentinel dictionary, and the remaining tasks are unaffected; in the DoH
fleet a completed task stores its statistics and a task that raised is
caught and only logged, so exactly the resolvers whose task completed
appear. -/
theorem fleet_fault_handling (dns_servers doh_servers : List String)
    (task : String → DNSSpeedTester.TaskOutcome) :
    (DNSSpeedTester.run_speed_test dns_servers task).map Prod.fst = dns_servers ∧
    (∀ server_name ∈ dns_servers, ∀ e, task server_name = Except.error e →
      (server_name, sentinelStats) ∈ DNSSpeedTester.run_speed_test dns_servers task) ∧
    (∀ server_name ∈ dns_servers, ∀ r, task server_name = Except.ok r →
      (server_name, r) ∈ DNSSpeedTester.run_speed_test dns_servers task) ∧
    (∀ server_name r, (server_name, r) ∈ DoHSpeedTester.run doh_servers task →
      server_name ∈ doh_servers ∧ task server_name = Except.ok r) ∧
    (∀ server_name ∈ doh_servers, ∀ r, task server_name = Except.ok r →
      (server_name, r) ∈ DoHSpeedTester.run doh_servers task) := by
  refine ⟨?_, ?_, ?_, ?_, ?_⟩
  · induction dns_servers with
    | nil => rfl
    | cons a t ih =>
      rw [DNSSpeedTester.run_speed_test, List.map_cons, List.map_cons]
      rw [DNSSpeedTester.run_speed_test] at ih
      rw [ih]
      cases task a <;> rfl
  · intro server_name hmem e htask
    rw [DNSSpeedTester.run_speed_test]
    refine List.mem_map.mpr ⟨server_name, hmem, ?_⟩
    rw [htask]
  · intro server_name hmem r htask
    rw [DNSSpeedTester.run_speed_test]
    refine List.mem_map.mpr ⟨server_name, hmem, ?_⟩
    rw [htask]
  · intro server_name r hmem
    rw [DoHSpeedTester.run] at hmem
    obtain ⟨a, ha, heq⟩ := List.mem_filterMap.mp hmem
    cases htask : task a with
    | error e => rw [htask] at heq; simp at heq
    | ok r2 =>
      rw [htask] at heq
      simp only [Option.some.injEq, Prod.mk.injEq] at heq
      obtain ⟨rfl, rfl⟩ := heq
      exact ⟨ha, htask⟩
  · intro server_name hmem r htask
    rw [DoHSpeedTester.run]
    refine List.mem_filterMap.mpr ⟨server_name, hmem, ?_⟩
    rw [htask]

/-- C7 counterexample to the claim as stated: in the DoH fleet, a resolver
whose task raised does not appear in the result mapping at all — it is not
substituted with the sentinel — while the UDP fleet does substitute it. -/
theorem doh_run_drops_faulted_cex :
    DoHSpeedTester.run ["Cloudflare IPv4", "Google DoH IPv4"]
        (fun server_name => if server_name = "Cloudflare IPv4" then Except.ok okStats
          else Except.error "boom") = [("Cloudflare IPv4", okStats)] ∧
    "Google DoH IPv4" ∉
      (DoHSpeedTester.run ["Cloudflare IPv4", "Google DoH IPv4"]
        (fun server_name => if server_name = "Cloudflare IPv4" then Except.ok okStats
          else Except.error "boom")).map Prod.fst ∧
    DNSSpeedTester.run_speed_test ["Cloudflare IPv4", "Google DoH IPv4"]
        (fun server_name => if server_name = "Cloudflare IPv4" then Except.ok okStats
          else Except.error "boom") =
      [("Cloudflare IPv4", okStats), ("Google DoH IPv4", sentinelStats)] := by
  refine ⟨?_, ?_, ?_⟩ <;>
    simp [DoHSpeedTester.run, DNSSpeedTester.run_speed_test]

/-- C8: the UDP probe closes its socket on the success path, but the
timeout/error path returns the infinite sentinel from the except branch
without any close — the source has no finally block and no context manager
— so the socket is not closed on every exit path. -/
theorem test_dns_server_socket_trace :
    DNSSpeedTester.test_dns_server_sockTrace steadyNet "8.8.8.8" "baidu.com" =
      [DNSSpeedTester.SockEvent.create, DNSSpeedTester.SockEvent.close] ∧
    DNSSpeedTester.test_dns_server_sockTrace failNet "8.8.8.8" "baidu.com" =
      [DNSSpeedTester.SockEvent.create] ∧
    DNSSpeedTester.SockEvent.close ∉
      DNSSpeedTester.test_dns_server_sockTrace failNet "8.8.8.8" "baidu.com" ∧
    (DNSSpeedTester.test_dns_server failNet "Google DNS 1" "8.8.8.8" "baidu.com").2 = ⊤ := by
  refine ⟨rfl, rfl, ?_, rfl⟩
  intro hmem
  rw [show DNSSpeedTester.test_dns_server_sockTrace failNet "8.8.8.8" "baidu.com" =
    [DNSSpeedTester.SockEvent.create] from rfl] at hmem
  simp at hmem
